import Mathlib

/-!
Verification of the OSM element-shaping transform (lesson6_6.py).

The transform `shape_element` turns one parsed XML element into a
document (a Python dict), or `None` when the element's tag name is
neither "node" nor "way".  We embed the element type, the dynamically
keyed document, and every helper of the source file, including the
failure modes of the Python runtime (KeyError on a missing attribute,
ValueError from float(), TypeError / AttributeError when a colliding
top-level key holds a value of the wrong shape).
-/

namespace OSM

/-- One parsed XML element: a tag name, the attribute mapping in document
order (keys are unique in well-formed XML), and the ordered list of child
elements. -/
inductive Elem where
  | mk (tag : String) (attrib : List (String × String)) (children : List Elem)

/-- The element's tag name. -/
def Elem.tag : Elem → String
  | .mk t _ _ => t

/-- The element's attribute mapping, in document order. -/
def Elem.attrib : Elem → List (String × String)
  | .mk _ a _ => a

/-- The element's direct children, in document order. -/
def Elem.children : Elem → List Elem
  | .mk _ _ cs => cs

mutual
/-- element.getiterator(): the element itself followed by all of its
descendants, in document (preorder) order. -/
def iterAll : Elem → List Elem
  | .mk t a cs => .mk t a cs :: iterAllList cs

/-- Preorder traversal of a list of sibling subtrees. -/
def iterAllList : List Elem → List Elem
  | [] => []
  | c :: cs => iterAll c ++ iterAllList cs
end

/-- A document value: a string, a number, a list, or a nested mapping.
Mappings are insertion-ordered association lists, the shape a Python dict
exposes. -/
inductive Value where
  | str (s : String)
  | num (q : Rat)
  | arr (elems : List Value)
  | obj (fields : List (String × Value))

/-- A document: an insertion-ordered mapping from string keys to values. -/
abbrev Obj := List (String × Value)

/-- Dictionary lookup: the value stored under `k`, if any. -/
def getKey (node : Obj) (k : String) : Option Value :=
  match node with
  | [] => none
  | (k₁, v₁) :: rest => if k₁ = k then some v₁ else getKey rest k

/-- Dictionary assignment `node[k] = v`: replaces the value in place when
the key is present (keeping its position), otherwise appends the new pair
at the end, exactly the insertion-order behaviour of a Python dict. -/
def setKey (node : Obj) (k : String) (v : Value) : Obj :=
  match node with
  | [] => [(k, v)]
  | (k₁, v₁) :: rest => if k₁ = k then (k, v) :: rest else (k₁, v₁) :: setKey rest k v

/-- Attribute lookup on an element's attribute mapping. -/
def getAttr (attrib : List (String × String)) (k : String) : Option String :=
  match attrib with
  | [] => none
  | (k₁, v₁) :: rest => if k₁ = k then some v₁ else getAttr rest k

/-- Python str.split(sep) for a one-character separator, over the
character list of the string.  Always returns at least one segment. -/
def splitOnChar (sep : Char) : List Char → List (List Char)
  | [] => [[]]
  | c :: rest =>
    match splitOnChar sep rest with
    | [] => [[]]
    | g :: gs => if c = sep then [] :: g :: gs else (c :: g) :: gs

/-- The problematic-character class of the source:
=, +, /, &, <, >, ;, apostrophe, double quote, ?, %, #, $, @, comma,
period, space, tab, CR, LF. -/
def PROBLEM_CHARS : List Char :=
  ['=', '+', '/', '&', '<', '>', ';', Char.ofNat 39, Char.ofNat 34,
   '?', '%', '#', '$', '@', ',', '.', ' ', '\t', '\r', '\n']

/-- The provenance attribute names collected under "created". -/
def CREATED : List String := ["version", "changeset", "timestamp", "user", "uid"]

/-- The position attribute names collected into "pos". -/
def POSITION : List String := ["lat", "lon"]

/-- contains_bad_char: true when the string contains a problematic
character anywhere. -/
def contains_bad_char (s : String) : Bool :=
  s.data.any (fun c => PROBLEM_CHARS.contains c)

/-- is_compound_street_address: true when the key, split on ":", has more
than two segments and the second segment is "street". -/
def is_compound_street_address (s : String) : Bool :=
  let values := splitOnChar ':' s.data
  decide (2 < values.length) && values.getD 1 [] == "street".data

/-- The digit string read as a natural number (callers check the digits). -/
def digitsVal (cs : List Char) : Nat :=
  cs.foldl (fun a c => a * 10 + (c.toNat - 48)) 0

/-- An unsigned decimal literal: an integer part, optionally a point and a
fractional part, at least one digit overall. -/
def parseUnsigned (cs : List Char) : Option Rat :=
  match splitOnChar '.' cs with
  | [ip] =>
    if !ip.isEmpty && ip.all Char.isDigit then some ((digitsVal ip : Nat) : Rat)
    else none
  | [ip, fp] =>
    if (!ip.isEmpty || !fp.isEmpty) && ip.all Char.isDigit && fp.all Char.isDigit then
      some (((digitsVal ip : Nat) : Rat) + ((digitsVal fp : Nat) : Rat) / ((10 : Rat) ^ fp.length))
    else none
  | _ => none

/-- Models the Python builtin float() string conversion on plain decimal
literals: an optional sign followed by decimal digits with an optional
fractional part.  Returns the exact rational value, or none when the
string is not numeric (Python raises ValueError there). -/
def parseFloat (s : String) : Option Rat :=
  match s.data with
  | [] => none
  | c :: rest =>
    if c = '-' then (parseUnsigned rest).map (fun q => -q)
    else if c = '+' then parseUnsigned rest
    else parseUnsigned (c :: rest)

/-- The failure modes of the transform: ValueError from float() is the
spec's ConversionError, KeyError on a missing attribute is the spec's
MissingAttributeError, and TypeError / AttributeError arise when a
colliding top-level key already holds a value of the wrong shape. -/
inductive ShapeError where
  | conversionError
  | missingAttributeError (key : String)
  | typeError
  | attributeError
deriving DecidableEq

/-- The contents of `node[k]` viewed as a sub-dictionary: an absent key
counts as the lazily created empty dict, and a non-dict value (possible
only after a key collision) yields none, making the caller raise
TypeError as Python does on item assignment to a non-dict. -/
def objAt (node : Obj) (k : String) : Option Obj :=
  match getKey node k with
  | none => some []
  | some (.obj m) => some m
  | some _ => none

/-- The contents of `node[k]` viewed as a list: an absent key counts as
the lazily created empty list, and a non-list value (possible only after
a key collision) yields none, making the caller raise AttributeError as
Python does on .insert/.append of a non-list. -/
def arrAt (node : Obj) (k : String) : Option (List Value) :=
  match getKey node k with
  | none => some []
  | some (.arr vs) => some vs
  | some _ => none

/-- The body of the attribute loop of transform_element_attributes:
CREATED attributes go under the "created" sub-dict, lat/lon are converted
to floats and placed into "pos" (lat inserted at the front, lon appended
at the back), and every other attribute is stored verbatim as a top-level
key. -/
def classifyAttr (node : Obj) (attrName value : String) : Except ShapeError Obj :=
  if CREATED.contains attrName then
    match objAt node "created" with
    | none => .error .typeError
    | some m => .ok (setKey node "created" (.obj (setKey m attrName (.str value))))
  else if POSITION.contains attrName then
    match arrAt node "pos" with
    | none => .error .attributeError
    | some vs =>
      match parseFloat value with
      | none => .error .conversionError
      | some x =>
        if attrName = "lat" then .ok (setKey node "pos" (.arr (.num x :: vs)))
        else .ok (setKey node "pos" (.arr (vs ++ [.num x])))
  else .ok (setKey node attrName (.str value))

/-- transform_element_attributes: fold the attribute classifier over the
attribute mapping in document order. -/
def foldAttrs (node : Obj) : List (String × String) → Except ShapeError Obj
  | [] => .ok node
  | (a, v) :: rest =>
    match classifyAttr node a v with
    | .error err => .error err
    | .ok n => foldAttrs n rest

/-- transform_tag_elem: reads the "k" and "v" attributes of a "tag" child
(KeyError when missing), skips keys with problematic characters or
compound street addresses, routes "addr:"-prefixed keys into the
"address" sub-dict under the second ":"-segment of the key, and stores
every other key verbatim as a top-level key. -/
def transform_tag_elem (node : Obj) (sub_elem : Elem) : Except ShapeError Obj :=
  match getAttr sub_elem.attrib "k" with
  | none => .error (.missingAttributeError "k")
  | some k_val =>
    match getAttr sub_elem.attrib "v" with
    | none => .error (.missingAttributeError "v")
    | some v_val =>
      if contains_bad_char k_val || is_compound_street_address k_val then .ok node
      else if "addr:".data.isPrefixOf k_val.data then
        match objAt node "address" with
        | none => .error .typeError
        | some m =>
          let key : String := ⟨(splitOnChar ':' k_val.data).getD 1 []⟩
          .ok (setKey node "address" (.obj (setKey m key (.str v_val))))
      else .ok (setKey node k_val (.str v_val))

/-- transform_nd_tag: reads the "ref" attribute of an "nd" child
(KeyError when missing) and appends it, as an unconverted string, to the
lazily created "node_refs" list. -/
def transform_nd_tag (node : Obj) (sub_elm : Elem) : Except ShapeError Obj :=
  match getAttr sub_elm.attrib "ref" with
  | none => .error (.missingAttributeError "ref")
  | some ref =>
    match arrAt node "node_refs" with
    | none => .error .attributeError
    | some vs => .ok (setKey node "node_refs" (.arr (vs ++ [.str ref])))

/-- The body of the sub-element loop of transform_sub_elem_attributes:
"tag" children go through transform_tag_elem, "nd" children through
transform_nd_tag, everything else is ignored. -/
def classifySub (node : Obj) (d : Elem) : Except ShapeError Obj :=
  if d.tag = "tag" then transform_tag_elem node d
  else if d.tag = "nd" then transform_nd_tag node d
  else .ok node

/-- transform_sub_elem_attributes: fold the sub-element classifier over
element.getiterator() in document order. -/
def foldSubs (node : Obj) : List Elem → Except ShapeError Obj
  | [] => .ok node
  | d :: rest =>
    match classifySub node d with
    | .error err => .error err
    | .ok n => foldSubs n rest

/-- shape_element: accepts only "node" and "way" elements (anything else
yields none), sets "type" to the tag name, classifies all attributes,
then classifies all "tag"/"nd" descendants, and returns the accumulated
document. -/
def shape_element (e : Elem) : Except ShapeError (Option Obj) :=
  if e.tag = "node" ∨ e.tag = "way" then
    match foldAttrs (setKey [] "type" (.str e.tag)) e.attrib with
    | .error err => .error err
    | .ok n =>
      match foldSubs n (iterAll e) with
      | .error err => .error err
      | .ok n => .ok (some n)
  else .ok none

/-- The "ref" attribute values of all "nd" descendants, in document
order (the sequence that populates "node_refs" when processing
succeeds). -/
def ndRefsList (ses : List Elem) : List String :=
  ses.filterMap (fun d => if d.tag = "nd" then getAttr d.attrib "ref" else none)

/-- The evolution of the document's "pos" entry under one attribute step:
a pure mirror of the effect classifyAttr has on that single key (the
cases in which classifyAttr raises keep the current entry; they are
unreachable in any run that returns a document). -/
def posTrack (cur : Option Value) (attrName value : String) : Option Value :=
  if CREATED.contains attrName then cur
  else if POSITION.contains attrName then
    match cur, parseFloat value with
    | none, some x => some (.arr [.num x])
    | some (.arr vs), some x =>
        some (.arr (if attrName = "lat" then .num x :: vs else vs ++ [.num x]))
    | c, _ => c
  else if attrName = "pos" then some (.str value) else cur

/-- The elements of a "pos" entry, empty for an absent or non-list entry. -/
def posVals : Option Value → List Value
  | some (.arr vs) => vs
  | _ => []

/-- A well-formed "pos" entry: absent, or a non-empty list of numbers. -/
def posGood : Option Value → Prop
  | none => True
  | some (.arr l) => 0 < l.length ∧ ∀ w ∈ l, ∃ q, w = .num q
  | some _ => False

/-- The "node_refs" entry corresponding to an accumulated reference list:
absent while no reference has been seen, otherwise the list of references
as string values. -/
def refsRep : List String → Option Value
  | [] => none
  | l => some (.arr (l.map .str))

/-- The document state the attribute loop relies on: the "created" entry,
if present, is a sub-dictionary, and the "pos" entry, if present, is a
list.  Both hold for the fresh document and are preserved while no
attribute is literally named "created" or "pos". -/
def attrsOk (n : Obj) : Prop :=
  (objAt n "created").isSome = true ∧ (arrAt n "pos").isSome = true

/-! ### Dictionary lemmas -/

theorem getKey_setKey_self (o : Obj) (k : String) (v : Value) :
    getKey (setKey o k v) k = some v := by
  induction o with
  | nil => simp [getKey, setKey]
  | cons p rest ih =>
    obtain ⟨k₁, v₁⟩ := p
    by_cases h : k₁ = k
    · simp [getKey, setKey, h]
    · simp [getKey, setKey, h, ih]

theorem getKey_setKey_ne (o : Obj) (k k' : String) (v : Value) (h : k' ≠ k) :
    getKey (setKey o k v) k' = getKey o k' := by
  induction o with
  | nil => simp [getKey, setKey, Ne.symm h]
  | cons p rest ih =>
    obtain ⟨k₁, v₁⟩ := p
    by_cases h1 : k₁ = k
    · subst h1
      simp [getKey, setKey, Ne.symm h]
    · by_cases h2 : k₁ = k'
      · simp [getKey, setKey, h1, h2, h]
      · simp [getKey, setKey, h1, h2, ih]

/-! ### Key preservation through the attribute loop -/

theorem classifyAttr_preserve {n n' : Obj} {a v K : String}
    (h : classifyAttr n a v = .ok n')
    (hK1 : K ≠ "created") (hK2 : K ≠ "pos") (hK3 : K ≠ a) :
    getKey n' K = getKey n K := by
  unfold classifyAttr at h
  split at h
  · cases hobj : objAt n "created" with
    | none => rw [hobj] at h; cases h
    | some m =>
      rw [hobj] at h
      cases h
      exact getKey_setKey_ne _ _ _ _ hK1
  · split at h
    · cases harr : arrAt n "pos" with
      | none => simp [harr] at h
      | some vs =>
        simp only [harr] at h
        cases hpf : parseFloat v with
        | none => simp [hpf] at h
        | some x =>
          simp only [hpf] at h
          by_cases hlat : a = "lat"
          · rw [if_pos hlat] at h
            cases h
            exact getKey_setKey_ne _ _ _ _ hK2
          · rw [if_neg hlat] at h
            cases h
            exact getKey_setKey_ne _ _ _ _ hK2
    · cases h
      exact getKey_setKey_ne _ _ _ _ hK3

theorem foldAttrs_preserve {as : List (String × String)} {n n' : Obj} {K : String}
    (h : foldAttrs n as = .ok n')
    (hK1 : K ≠ "created") (hK2 : K ≠ "pos")
    (hK3 : K ∉ as.map Prod.fst) :
    getKey n' K = getKey n K := by
  induction as generalizing n with
  | nil =>
    unfold foldAttrs at h
    cases h
    rfl
  | cons p rest ih =>
    obtain ⟨a, v⟩ := p
    unfold foldAttrs at h
    cases hc : classifyAttr n a v with
    | error e => rw [hc] at h; cases h
    | ok n₁ =>
      rw [hc] at h
      have h' : foldAttrs n₁ rest = .ok n' := h
      have hKa : K ≠ a := by
        intro hh
        exact hK3 (by simp [hh])
      have hrest : K ∉ rest.map Prod.fst := by
        intro hh
        exact hK3 (by simp [hh])
      rw [ih h' hrest, classifyAttr_preserve hc hK1 hK2 hKa]

/-! ### Key preservation through the sub-element loop -/

theorem transform_tag_elem_preserve {n n' : Obj} {d : Elem} {K : String}
    (h : transform_tag_elem n d = .ok n')
    (hK1 : K ≠ "address") (hK2 : getAttr d.attrib "k" ≠ some K) :
    getKey n' K = getKey n K := by
  unfold transform_tag_elem at h
  cases hk : getAttr d.attrib "k" with
  | none => simp [hk] at h
  | some k_val =>
    simp only [hk] at h
    cases hv : getAttr d.attrib "v" with
    | none => simp [hv] at h
    | some v_val =>
      simp only [hv] at h
      have hKk : K ≠ k_val := by
        intro hh
        exact hK2 (by rw [hk, hh])
      by_cases hskip : (contains_bad_char k_val || is_compound_street_address k_val) = true
      · rw [if_pos hskip] at h
        cases h
        rfl
      · rw [if_neg hskip] at h
        by_cases hpre : "addr:".data.isPrefixOf k_val.data = true
        · rw [if_pos hpre] at h
          cases hobj : objAt n "address" with
          | none => simp [hobj] at h
          | some m =>
            simp only [hobj] at h
            cases h
            exact getKey_setKey_ne _ _ _ _ hK1
        · rw [if_neg hpre] at h
          cases h
          exact getKey_setKey_ne _ _ _ _ hKk

theorem transform_nd_tag_preserve {n n' : Obj} {d : Elem} {K : String}
    (h : transform_nd_tag n d = .ok n') (hK : K ≠ "node_refs") :
    getKey n' K = getKey n K := by
  unfold transform_nd_tag at h
  cases hr : getAttr d.attrib "ref" with
  | none => rw [hr] at h; cases h
  | some r =>
    rw [hr] at h
    cases harr : arrAt n "node_refs" with
    | none => rw [harr] at h; cases h
    | some vs =>
      rw [harr] at h
      cases h
      exact getKey_setKey_ne _ _ _ _ hK

theorem foldSubs_preserve {ses : List Elem} {n n' : Obj} {K : String}
    (h : foldSubs n ses = .ok n')
    (hK1 : K ≠ "address") (hK2 : K ≠ "node_refs")
    (hK3 : ∀ d ∈ ses, d.tag = "tag" → getAttr d.attrib "k" ≠ some K) :
    getKey n' K = getKey n K := by
  induction ses generalizing n with
  | nil =>
    unfold foldSubs at h
    cases h
    rfl
  | cons d rest ih =>
    unfold foldSubs at h
    cases hc : classifySub n d with
    | error e => rw [hc] at h; cases h
    | ok n₁ =>
      rw [hc] at h
      have h' : foldSubs n₁ rest = .ok n' := h
      have hrest : ∀ d ∈ rest, d.tag = "tag" → getAttr d.attrib "k" ≠ some K :=
        fun d hd => hK3 d (by simp [hd])
      rw [ih h' hrest]
      unfold classifySub at hc
      split at hc
      · exact transform_tag_elem_preserve hc hK1 (hK3 d (by simp) ‹d.tag = "tag"›)
      · split at hc
        · exact transform_nd_tag_preserve hc hK2
        · cases hc; rfl

/-! ### Decomposition of a successful run of shape_element -/

theorem shape_element_ok {e : Elem} {doc : Obj}
    (h : shape_element e = .ok (some doc)) (ht : e.tag = "node" ∨ e.tag = "way") :
    ∃ n₁, foldAttrs (setKey [] "type" (.str e.tag)) e.attrib = .ok n₁ ∧
      foldSubs n₁ (iterAll e) = .ok doc := by
  unfold shape_element at h
  rw [if_pos ht] at h
  cases h1 : foldAttrs (setKey [] "type" (.str e.tag)) e.attrib with
  | error err => rw [h1] at h; cases h
  | ok n₁ =>
    rw [h1] at h
    have h' : (match foldSubs n₁ (iterAll e) with
        | .error err => (.error err : Except ShapeError (Option Obj))
        | .ok n => .ok (some n)) = .ok (some doc) := h
    cases h2 : foldSubs n₁ (iterAll e) with
    | error err => rw [h2] at h'; cases h'
    | ok n₂ =>
      rw [h2] at h'
      cases h'
      exact ⟨n₁, rfl, h2⟩

/-! ### Claim C1 -/

/-- C1: an element whose tag name is neither "node" nor "way" shapes to
null with no error; and whenever shape_element returns normally on a
"node" or "way" element, it returns a document, never null. -/
theorem claim_C1 :
    (∀ e : Elem, e.tag ≠ "node" → e.tag ≠ "way" → shape_element e = .ok none) ∧
    (∀ (e : Elem) (r : Option Obj), (e.tag = "node" ∨ e.tag = "way") →
      shape_element e = .ok r → r.isSome = true) := by
  constructor
  · intro e h1 h2
    unfold shape_element
    rw [if_neg (fun hh => hh.elim h1 h2)]
  · intro e r ht h
    unfold shape_element at h
    rw [if_pos ht] at h
    cases h1 : foldAttrs (setKey [] "type" (.str e.tag)) e.attrib with
    | error err => rw [h1] at h; cases h
    | ok n₁ =>
      rw [h1] at h
      have h' : (match foldSubs n₁ (iterAll e) with
          | .error err => (.error err : Except ShapeError (Option Obj))
          | .ok n => .ok (some n)) = .ok r := h
      cases h2 : foldSubs n₁ (iterAll e) with
      | error err => rw [h2] at h'; cases h'
      | ok n₂ => rw [h2] at h'; cases h'; rfl

/-- Witness for C1 at a concrete "relation" element. -/
theorem claim_C1_witness :
    shape_element (.mk "relation" [("id", "1")] []) = .ok none :=
  claim_C1.1 (.mk "relation" [("id", "1")] []) (by decide) (by decide)

/-! ### Claim C3 -/

/-- C3: a "tag" child whose key has a problematic character or is a
compound street address leaves the document unchanged (so no key derived
from it reaches the output); the three addr:street:* keys are compound
while addr:street itself is neither problematic nor compound and is kept
in the address sub-mapping. -/
theorem claim_C3 :
    (∀ (node : Obj) (d : Elem) (k v : String),
      getAttr d.attrib "k" = some k → getAttr d.attrib "v" = some v →
      (contains_bad_char k = true ∨ is_compound_street_address k = true) →
      transform_tag_elem node d = .ok node) ∧
    is_compound_street_address "addr:street:name" = true ∧
    is_compound_street_address "addr:street:prefix" = true ∧
    is_compound_street_address "addr:street:type" = true ∧
    is_compound_street_address "addr:street" = false ∧
    contains_bad_char "addr:street" = false ∧
    (∀ (node : Obj) (d : Elem) (v : String),
      getAttr d.attrib "k" = some "addr:street" → getAttr d.attrib "v" = some v →
      getKey node "address" = none →
      transform_tag_elem node d = .ok (setKey node "address" (.obj [("street", .str v)]))) := by
  refine ⟨?_, by decide, by decide, by decide, by decide, by decide, ?_⟩
  · intro node d k v hk hv hor
    unfold transform_tag_elem
    simp only [hk, hv]
    have hcond : (contains_bad_char k || is_compound_street_address k) = true := by
      rcases hor with h | h <;> simp [h]
    rw [if_pos hcond]
  · intro node d v hk hv haddr
    unfold transform_tag_elem
    simp only [hk, hv]
    rw [if_neg (by decide), if_pos (by decide)]
    have hobj : objAt node "address" = some [] := by simp [objAt, haddr]
    simp only [hobj]
    rfl

/-- Witness for C3: a compound street key is dropped from a concrete
document. -/
theorem claim_C3_witness :
    transform_tag_elem [("type", Value.str "node")]
      (.mk "tag" [("k", "addr:street:name"), ("v", "Lincoln")] []) =
      .ok [("type", Value.str "node")] :=
  claim_C3.1 [("type", Value.str "node")]
    (.mk "tag" [("k", "addr:street:name"), ("v", "Lincoln")] [])
    "addr:street:name" "Lincoln" (by decide) (by decide) (Or.inr (by decide))

/-! ### Claim C4 -/

/-- C4: an accepted "tag" child with an "addr:"-prefixed key stores its
value verbatim (as a string) in the lazily created address sub-mapping,
under exactly the second colon-delimited segment of the key. -/
theorem claim_C4 (node : Obj) (d : Elem) (k v : String) (A : Obj)
    (hk : getAttr d.attrib "k" = some k) (hv : getAttr d.attrib "v" = some v)
    (hbad : contains_bad_char k = false)
    (hcomp : is_compound_street_address k = false)
    (hpre : "addr:".data.isPrefixOf k.data = true)
    (haddr : getKey node "address" = none ∧ A = [] ∨ getKey node "address" = some (.obj A)) :
    transform_tag_elem node d =
      .ok (setKey node "address"
        (.obj (setKey A ⟨(splitOnChar ':' k.data).getD 1 []⟩ (.str v)))) := by
  unfold transform_tag_elem
  simp only [hk, hv]
  rw [if_neg (by simp [hbad, hcomp]), if_pos hpre]
  have hobj : objAt node "address" = some A := by
    rcases haddr with ⟨h1, h2⟩ | h1
    · subst h2
      simp [objAt, h1]
    · simp [objAt, h1]
  simp only [hobj]

/-- Witness for C4: addr:housenumber lands in the address sub-mapping
under "housenumber". -/
theorem claim_C4_witness :
    transform_tag_elem [] (.mk "tag" [("k", "addr:housenumber"), ("v", "5158")] []) =
      .ok [("address", .obj [("housenumber", .str "5158")])] :=
  claim_C4 [] (.mk "tag" [("k", "addr:housenumber"), ("v", "5158")] [])
    "addr:housenumber" "5158" [] (by decide) (by decide) (by decide) (by decide)
    (by decide) (Or.inl ⟨rfl, rfl⟩)

/-! ### Claim C6 -/

/-- C6 fails as stated: on a "node" element carrying an attribute
literally named "type", the attribute value overwrites the document's
type field, so the type field no longer equals the tag name. -/
theorem claim_C6_counterexample :
    shape_element (.mk "node" [("type", "x")] []) = .ok (some [("type", .str "x")]) := rfl

/-- C6 (amended): for every accepted element none of whose attributes is
named "type" and none of whose "tag" descendants carries k = "type", the
document's type field equals the element's tag name. -/
theorem claim_C6_amended (e : Elem) (doc : Obj)
    (ht : e.tag = "node" ∨ e.tag = "way")
    (ha : "type" ∉ e.attrib.map Prod.fst)
    (hc : ∀ d ∈ iterAll e, d.tag = "tag" → getAttr d.attrib "k" ≠ some "type")
    (h : shape_element e = .ok (some doc)) :
    getKey doc "type" = some (.str e.tag) := by
  obtain ⟨n₁, h1, h2⟩ := shape_element_ok h ht
  rw [foldSubs_preserve h2 (by decide) (by decide) hc,
      foldAttrs_preserve h1 (by decide) (by decide) ha]
  simp [getKey, setKey]

/-- Witness for C6 (amended) at a concrete "node" element. -/
theorem claim_C6_witness :
    getKey [("type", Value.str "node"), ("id", Value.str "3")] "type" =
      some (.str "node") :=
  claim_C6_amended (.mk "node" [("id", "3")] [])
    [("type", Value.str "node"), ("id", Value.str "3")]
    (Or.inl rfl) (by decide) (by decide) rfl

/-! ### Tracking the node_refs entry through the sub-element loop -/

theorem transform_nd_tag_refs {n n' : Obj} {d : Elem} {acc : List String}
    (h : transform_nd_tag n d = .ok n')
    (hacc : getKey n "node_refs" = refsRep acc) :
    ∃ r, getAttr d.attrib "ref" = some r ∧
      getKey n' "node_refs" = refsRep (acc ++ [r]) := by
  unfold transform_nd_tag at h
  cases hr : getAttr d.attrib "ref" with
  | none => simp [hr] at h
  | some r =>
    simp only [hr] at h
    refine ⟨r, rfl, ?_⟩
    cases acc with
    | nil =>
      simp only [refsRep] at hacc
      have harr : arrAt n "node_refs" = some [] := by simp [arrAt, hacc]
      simp only [harr] at h
      cases h
      rw [getKey_setKey_self]
      simp [refsRep]
    | cons s rest =>
      simp only [refsRep] at hacc
      have harr : arrAt n "node_refs" = some ((s :: rest).map .str) := by
        simp [arrAt, hacc]
      simp only [harr] at h
      cases h
      rw [getKey_setKey_self]
      simp [refsRep]

theorem foldSubs_refs {ses : List Elem} {n n' : Obj} {acc : List String}
    (h : foldSubs n ses = .ok n')
    (htag : ∀ d ∈ ses, d.tag = "tag" → getAttr d.attrib "k" ≠ some "node_refs")
    (hacc : getKey n "node_refs" = refsRep acc) :
    getKey n' "node_refs" = refsRep (acc ++ ndRefsList ses) := by
  induction ses generalizing n acc with
  | nil =>
    unfold foldSubs at h
    cases h
    simpa [ndRefsList] using hacc
  | cons d rest ih =>
    unfold foldSubs at h
    cases hc : classifySub n d with
    | error e => rw [hc] at h; cases h
    | ok n₁ =>
      rw [hc] at h
      have h' : foldSubs n₁ rest = .ok n' := h
      have hrest : ∀ x ∈ rest, x.tag = "tag" → getAttr x.attrib "k" ≠ some "node_refs" :=
        fun x hx => htag x (by simp [hx])
      unfold classifySub at hc
      by_cases htg : d.tag = "tag"
      · rw [if_pos htg] at hc
        have hpres := transform_tag_elem_preserve hc (by decide) (htag d (by simp) htg)
        have hstay : getKey n₁ "node_refs" = refsRep acc := by rw [hpres, hacc]
        have hlist : ndRefsList (d :: rest) = ndRefsList rest := by
          simp [ndRefsList, htg]
        rw [hlist]
        exact ih h' hrest hstay
      · rw [if_neg htg] at hc
        by_cases hd : d.tag = "nd"
        · rw [if_pos hd] at hc
          obtain ⟨r, hr, hn₁⟩ := transform_nd_tag_refs hc hacc
          have hlist : ndRefsList (d :: rest) = r :: ndRefsList rest := by
            simp [ndRefsList, hd, hr]
          rw [hlist]
          rw [ih h' hrest hn₁, List.append_assoc]
          rfl
        · rw [if_neg hd] at hc
          cases hc
          have hlist : ndRefsList (d :: rest) = ndRefsList rest := by
            simp [ndRefsList, hd]
          rw [hlist]
          exact ih h' hrest hacc

/-! ### Claim C5 -/

/-- C5 fails as stated: a "way" element with no "nd" children but with an
attribute literally named "node_refs" produces a document whose
node_refs entry is present — the verbatim attribute string — while the
claim requires node_refs to be absent when there are no nd children. -/
theorem claim_C5_counterexample :
    shape_element (.mk "way" [("node_refs", "x")] []) =
      .ok (some [("type", .str "way"), ("node_refs", .str "x")]) := rfl

/-- C5 (amended): for every accepted element with no attribute named
"node_refs" and no "tag" descendant whose k attribute is "node_refs",
the document's node_refs entry lists exactly the ref attribute values of
the "nd" descendants in document order, as unconverted strings with
duplicates retained, and is absent when there are no "nd" descendants. -/
theorem claim_C5_amended (e : Elem) (doc : Obj)
    (ht : e.tag = "node" ∨ e.tag = "way")
    (ha : "node_refs" ∉ e.attrib.map Prod.fst)
    (hc : ∀ d ∈ iterAll e, d.tag = "tag" → getAttr d.attrib "k" ≠ some "node_refs")
    (h : shape_element e = .ok (some doc)) :
    getKey doc "node_refs" = refsRep (ndRefsList (iterAll e)) := by
  obtain ⟨n₁, h1, h2⟩ := shape_element_ok h ht
  have hstart : getKey n₁ "node_refs" = refsRep [] := by
    rw [foldAttrs_preserve h1 (by decide) (by decide) ha]
    simp [getKey, setKey, refsRep]
  simpa using foldSubs_refs h2 hc hstart

/-- Witness for C5 (amended): three nd children, duplicates retained in
document order. -/
theorem claim_C5_witness :
    getKey [("type", Value.str "way"),
        ("node_refs", Value.arr [Value.str "r1", Value.str "r2", Value.str "r1"])]
      "node_refs" =
      refsRep (ndRefsList (iterAll (.mk "way" []
        [.mk "nd" [("ref", "r1")] [], .mk "nd" [("ref", "r2")] [],
         .mk "nd" [("ref", "r1")] []]))) :=
  claim_C5_amended
    (.mk "way" []
      [.mk "nd" [("ref", "r1")] [], .mk "nd" [("ref", "r2")] [],
       .mk "nd" [("ref", "r1")] []])
    [("type", Value.str "way"),
     ("node_refs", Value.arr [Value.str "r1", Value.str "r2", Value.str "r1"])]
    (Or.inr rfl) (by decide) (by decide) rfl

/-! ### Claim C8 -/

/-- C8 fails as stated: the sub-element loop never checks the top-level
tag name, so a "node" element with an "nd" child gets a node_refs
entry. -/
theorem claim_C8_counterexample :
    shape_element (.mk "node" [] [.mk "nd" [("ref", "1")] []]) =
      .ok (some [("type", .str "node"), ("node_refs", .arr [.str "1"])]) := rfl

/-- C8 (amended): a document produced from a "node" element has no
node_refs entry provided the element has no "nd" descendants, no
attribute named "node_refs", and no "tag" descendant with k =
"node_refs". -/
theorem claim_C8_amended (e : Elem) (doc : Obj)
    (ht : e.tag = "node")
    (hnd : ∀ d ∈ iterAll e, d.tag ≠ "nd")
    (ha : "node_refs" ∉ e.attrib.map Prod.fst)
    (hc : ∀ d ∈ iterAll e, d.tag = "tag" → getAttr d.attrib "k" ≠ some "node_refs")
    (h : shape_element e = .ok (some doc)) :
    getKey doc "node_refs" = none := by
  obtain ⟨n₁, h1, h2⟩ := shape_element_ok h (Or.inl ht)
  have hstart : getKey n₁ "node_refs" = refsRep [] := by
    rw [foldAttrs_preserve h1 (by decide) (by decide) ha]
    simp [getKey, setKey, refsRep]
  have hempty : ndRefsList (iterAll e) = [] := by
    unfold ndRefsList
    rw [List.filterMap_eq_nil_iff]
    intro d hd
    simp [hnd d hd]
  have := foldSubs_refs h2 hc hstart
  rw [hempty] at this
  simpa [refsRep] using this

/-- Witness for C8 (amended): a node with only a "tag" child has no
node_refs entry. -/
theorem claim_C8_witness :
    getKey [("type", Value.str "node"), ("amenity", Value.str "pharmacy")]
      "node_refs" = none :=
  claim_C8_amended (.mk "node" [] [.mk "tag" [("k", "amenity"), ("v", "pharmacy")] []])
    [("type", Value.str "node"), ("amenity", Value.str "pharmacy")]
    rfl (by decide) (by decide) (by decide) rfl

/-! ### Tracking the pos entry through the attribute loop -/

theorem classifyAttr_posTrack {n n' : Obj} {a v : String}
    (h : classifyAttr n a v = .ok n') :
    getKey n' "pos" = posTrack (getKey n "pos") a v := by
  unfold classifyAttr at h
  unfold posTrack
  by_cases hcr : CREATED.contains a
  · rw [if_pos hcr] at h ⊢
    cases hobj : objAt n "created" with
    | none => simp [hobj] at h
    | some m =>
      simp only [hobj] at h
      cases h
      exact getKey_setKey_ne _ _ _ _ (by decide)
  · rw [if_neg hcr] at h ⊢
    by_cases hps : POSITION.contains a
    · rw [if_pos hps] at h ⊢
      cases harr : arrAt n "pos" with
      | none =>
        simp [harr] at h
      | some vs =>
        simp only [harr] at h
        cases hpf : parseFloat v with
        | none => simp [hpf] at h
        | some x =>
          simp only [hpf] at h
          unfold arrAt at harr
          cases hg : getKey n "pos" with
          | none =>
            rw [hg] at harr
            cases harr
            simp only [hg, hpf]
            by_cases hlat : a = "lat"
            · rw [if_pos hlat] at h
              cases h
              rw [getKey_setKey_self]
            · rw [if_neg hlat] at h
              cases h
              rw [getKey_setKey_self]
              rfl
          | some w =>
            rw [hg] at harr
            cases w with
            | str s => simp at harr
            | num q => simp at harr
            | obj m => simp at harr
            | arr l =>
              simp only [Option.some.injEq] at harr
              cases harr
              simp only [hg, hpf]
              by_cases hlat : a = "lat"
              · rw [if_pos hlat] at h ⊢
                cases h
                rw [getKey_setKey_self]
              · rw [if_neg hlat] at h ⊢
                cases h
                rw [getKey_setKey_self]
    · rw [if_neg hps] at h ⊢
      cases h
      by_cases hp : a = "pos"
      · rw [if_pos hp]
        subst hp
        rw [getKey_setKey_self]
      · rw [if_neg hp]
        exact getKey_setKey_ne _ _ _ _ (fun hh => hp hh.symm)

theorem foldAttrs_posTrack {as : List (String × String)} {n n' : Obj}
    (h : foldAttrs n as = .ok n') :
    getKey n' "pos" = as.foldl (fun c p => posTrack c p.1 p.2) (getKey n "pos") := by
  induction as generalizing n with
  | nil =>
    unfold foldAttrs at h
    cases h
    rfl
  | cons p rest ih =>
    obtain ⟨a, v⟩ := p
    unfold foldAttrs at h
    cases hc : classifyAttr n a v with
    | error e => rw [hc] at h; cases h
    | ok n₁ =>
      rw [hc] at h
      have h' : foldAttrs n₁ rest = .ok n' := h
      rw [List.foldl_cons, ih h', classifyAttr_posTrack hc]

theorem posTrack_skip {cur : Option Value} {a v : String}
    (h1 : a ≠ "lat") (h2 : a ≠ "lon") (h3 : a ≠ "pos") :
    posTrack cur a v = cur := by
  unfold posTrack
  by_cases hcr : CREATED.contains a
  · rw [if_pos hcr]
  · rw [if_neg hcr]
    have hps : ¬POSITION.contains a = true := by
      simp [POSITION]
      exact ⟨h1, h2⟩
    rw [if_neg hps, if_neg h3]

theorem foldl_posTrack_skip {as : List (String × String)} (cur : Option Value)
    (h : ∀ p ∈ as, p.1 ≠ "lat" ∧ p.1 ≠ "lon" ∧ p.1 ≠ "pos") :
    as.foldl (fun c p => posTrack c p.1 p.2) cur = cur := by
  induction as generalizing cur with
  | nil => rfl
  | cons p rest ih =>
    rw [List.foldl_cons]
    obtain ⟨h1, h2, h3⟩ := h p (by simp)
    rw [posTrack_skip h1 h2 h3]
    exact ih cur (fun q hq => h q (by simp [hq]))

theorem posTrack_lat_none {la : String} {x : Rat} (hx : parseFloat la = some x) :
    posTrack none "lat" la = some (.arr [.num x]) := by
  unfold posTrack
  rw [if_neg (by decide), if_pos (by decide)]
  simp [hx]

theorem posTrack_lon_none {lo : String} {y : Rat} (hy : parseFloat lo = some y) :
    posTrack none "lon" lo = some (.arr [.num y]) := by
  unfold posTrack
  rw [if_neg (by decide), if_pos (by decide)]
  simp [hy]

theorem posTrack_lat_arr {la : String} {x : Rat} {vs : List Value}
    (hx : parseFloat la = some x) :
    posTrack (some (.arr vs)) "lat" la = some (.arr (.num x :: vs)) := by
  unfold posTrack
  rw [if_neg (by decide), if_pos (by decide)]
  simp [hx]

theorem posTrack_lon_arr {lo : String} {y : Rat} {vs : List Value}
    (hy : parseFloat lo = some y) :
    posTrack (some (.arr vs)) "lon" lo = some (.arr (vs ++ [.num y])) := by
  unfold posTrack
  rw [if_neg (by decide), if_pos (by decide)]
  simp [hy]

theorem foldl_posTrack_cons (cur : Option Value) (a v : String)
    (rest : List (String × String)) :
    List.foldl (fun c p => posTrack c p.1 p.2) cur ((a, v) :: rest) =
      List.foldl (fun c p => posTrack c p.1 p.2) (posTrack cur a v) rest := rfl

theorem foldl_posTrack_latlon {as : List (String × String)} {la lo : String} {x y : Rat}
    (hnd : (as.map Prod.fst).Nodup)
    (hla : ("lat", la) ∈ as) (hlo : ("lon", lo) ∈ as)
    (hpos : "pos" ∉ as.map Prod.fst)
    (hx : parseFloat la = some x) (hy : parseFloat lo = some y) :
    as.foldl (fun c p => posTrack c p.1 p.2) none = some (.arr [.num x, .num y]) := by
  obtain ⟨l₁, l₂, rfl⟩ := List.append_of_mem hla
  rcases List.mem_append.mp hlo with hlo1 | hlo2
  · -- the lon attribute is encountered before the lat attribute
    obtain ⟨m₁, m₂, rfl⟩ := List.append_of_mem hlo1
    simp only [List.map_append, List.map_cons] at hnd hpos
    rw [List.nodup_append] at hnd
    obtain ⟨hndA, hndB, hdisj⟩ := hnd
    rw [List.nodup_append] at hndA
    obtain ⟨-, hndlon, hdisjA⟩ := hndA
    rw [List.nodup_cons] at hndlon
    obtain ⟨hlonm₂, -⟩ := hndlon
    rw [List.nodup_cons] at hndB
    obtain ⟨hlatl₂, -⟩ := hndB
    simp only [List.mem_append, List.mem_cons, not_or] at hpos
    obtain ⟨⟨hp1, -, hp2⟩, -, hp3⟩ := hpos
    have hm₁ : ∀ p ∈ m₁, (p : String × String).1 ≠ "lat" ∧ p.1 ≠ "lon" ∧ p.1 ≠ "pos" := by
      intro p hp
      have hm : p.1 ∈ m₁.map Prod.fst := List.mem_map_of_mem Prod.fst hp
      refine ⟨?_, ?_, ?_⟩
      · intro e
        rw [e] at hm
        exact hdisj (List.mem_append.mpr (Or.inl hm)) (List.mem_cons_self _ _)
      · intro e
        rw [e] at hm
        exact hdisjA hm (List.mem_cons_self _ _)
      · intro e
        rw [e] at hm
        exact hp1 hm
    have hm₂ : ∀ p ∈ m₂, (p : String × String).1 ≠ "lat" ∧ p.1 ≠ "lon" ∧ p.1 ≠ "pos" := by
      intro p hp
      have hm : p.1 ∈ m₂.map Prod.fst := List.mem_map_of_mem Prod.fst hp
      refine ⟨?_, ?_, ?_⟩
      · intro e
        rw [e] at hm
        exact hdisj (List.mem_append.mpr (Or.inr (List.mem_cons_of_mem _ hm)))
          (List.mem_cons_self _ _)
      · intro e
        rw [e] at hm
        exact hlonm₂ hm
      · intro e
        rw [e] at hm
        exact hp2 hm
    have hl₂ : ∀ p ∈ l₂, (p : String × String).1 ≠ "lat" ∧ p.1 ≠ "lon" ∧ p.1 ≠ "pos" := by
      intro p hp
      have hm : p.1 ∈ l₂.map Prod.fst := List.mem_map_of_mem Prod.fst hp
      refine ⟨?_, ?_, ?_⟩
      · intro e
        rw [e] at hm
        exact hlatl₂ hm
      · intro e
        rw [e] at hm
        exact hdisj (List.mem_append.mpr (Or.inr (List.mem_cons_self _ _)))
          (List.mem_cons_of_mem _ hm)
      · intro e
        rw [e] at hm
        exact hp3 hm
    have hinner : List.foldl (fun c p => posTrack c p.1 p.2) none (("lon", lo) :: m₂) =
        some (.arr [.num y]) := by
      rw [foldl_posTrack_cons, posTrack_lon_none hy, foldl_posTrack_skip _ hm₂]
    rw [List.foldl_append, List.foldl_append, foldl_posTrack_skip none hm₁, hinner,
        foldl_posTrack_cons, posTrack_lat_arr hx, foldl_posTrack_skip _ hl₂]
  · rcases List.mem_cons.mp hlo2 with heq | hlo3
    · injection heq with h1 h2
      exact absurd h1 (by decide)
    · -- the lat attribute is encountered before the lon attribute
      obtain ⟨m₁, m₂, rfl⟩ := List.append_of_mem hlo3
      simp only [List.map_append, List.map_cons] at hnd hpos
      rw [List.nodup_append] at hnd
      obtain ⟨-, hnd2, hdisj⟩ := hnd
      rw [List.nodup_cons] at hnd2
      obtain ⟨hlatnot, hnd3⟩ := hnd2
      rw [List.nodup_append] at hnd3
      obtain ⟨-, hnd4, hdisj2⟩ := hnd3
      rw [List.nodup_cons] at hnd4
      obtain ⟨hlonm₂, -⟩ := hnd4
      simp only [List.mem_append, List.mem_cons, not_or] at hpos
      obtain ⟨hp1, -, hp2, -, hp3⟩ := hpos
      have hl₁ : ∀ p ∈ l₁, (p : String × String).1 ≠ "lat" ∧ p.1 ≠ "lon" ∧ p.1 ≠ "pos" := by
        intro p hp
        have hm : p.1 ∈ l₁.map Prod.fst := List.mem_map_of_mem Prod.fst hp
        refine ⟨?_, ?_, ?_⟩
        · intro e
          rw [e] at hm
          exact hdisj hm (by simp)
        · intro e
          rw [e] at hm
          exact hdisj hm (by simp)
        · intro e
          rw [e] at hm
          exact hp1 hm
      have hm₁ : ∀ p ∈ m₁, (p : String × String).1 ≠ "lat" ∧ p.1 ≠ "lon" ∧ p.1 ≠ "pos" := by
        intro p hp
        have hm : p.1 ∈ m₁.map Prod.fst := List.mem_map_of_mem Prod.fst hp
        refine ⟨?_, ?_, ?_⟩
        · intro e
          rw [e] at hm
          exact hlatnot (by simp [hm])
        · intro e
          rw [e] at hm
          exact hdisj2 hm (by simp)
        · intro e
          rw [e] at hm
          exact hp2 hm
      have hm₂ : ∀ p ∈ m₂, (p : String × String).1 ≠ "lat" ∧ p.1 ≠ "lon" ∧ p.1 ≠ "pos" := by
        intro p hp
        have hm : p.1 ∈ m₂.map Prod.fst := List.mem_map_of_mem Prod.fst hp
        refine ⟨?_, ?_, ?_⟩
        · intro e
          rw [e] at hm
          exact hlatnot (by simp [hm])
        · intro e
          rw [e] at hm
          exact hlonm₂ hm
        · intro e
          rw [e] at hm
          exact hp3 hm
      rw [List.foldl_append, foldl_posTrack_skip none hl₁, foldl_posTrack_cons,
          posTrack_lat_none hx, List.foldl_append, foldl_posTrack_skip _ hm₁,
          foldl_posTrack_cons, posTrack_lon_arr hy, foldl_posTrack_skip _ hm₂]
      rfl

/-! ### Claim C2 -/

/-- C2 fails as stated: an element carrying both lat and lon but also an
attribute literally named "pos" has its pos entry overwritten by the
verbatim attribute string, so pos is not [float(lat), float(lon)] (and
the outcome depends on attribute order). -/
theorem claim_C2_counterexample :
    shape_element (.mk "node" [("lat", "1"), ("lon", "2"), ("pos", "z")] []) =
      .ok (some [("type", .str "node"), ("pos", .str "z")]) := rfl

/-- C2 (amended): for every accepted element whose attribute names are
unique, that carries both a lat and a lon attribute with numeric values,
has no further attribute named "pos" and no "tag" descendant with k =
"pos", the document's pos entry is exactly [float(lat), float(lon)],
with lat first, whatever the order of the two attributes. -/
theorem claim_C2_amended (e : Elem) (doc : Obj) (la lo : String) (x y : Rat)
    (ht : e.tag = "node" ∨ e.tag = "way")
    (hnd : (e.attrib.map Prod.fst).Nodup)
    (hla : ("lat", la) ∈ e.attrib) (hlo : ("lon", lo) ∈ e.attrib)
    (hx : parseFloat la = some x) (hy : parseFloat lo = some y)
    (hpos : "pos" ∉ e.attrib.map Prod.fst)
    (hc : ∀ d ∈ iterAll e, d.tag = "tag" → getAttr d.attrib "k" ≠ some "pos")
    (h : shape_element e = .ok (some doc)) :
    getKey doc "pos" = some (.arr [.num x, .num y]) := by
  obtain ⟨n₁, h1, h2⟩ := shape_element_ok h ht
  have hstart : getKey (setKey [] "type" (.str e.tag)) "pos" = none := by
    simp [getKey, setKey]
  rw [foldSubs_preserve h2 (by decide) (by decide) hc, foldAttrs_posTrack h1, hstart,
      foldl_posTrack_latlon hnd hla hlo hpos hx hy]

/-- Witness for C2 (amended): lon listed before lat still yields
pos = [lat, lon]. -/
theorem claim_C2_witness :
    getKey [("type", Value.str "node"),
        ("pos", Value.arr [Value.num 1, Value.num 2])] "pos" =
      some (.arr [.num 1, .num 2]) :=
  claim_C2_amended (.mk "node" [("lon", "2"), ("lat", "1")] [])
    [("type", Value.str "node"), ("pos", Value.arr [Value.num 1, Value.num 2])]
    "1" "2" 1 2 (Or.inl rfl) (by decide) (by decide) (by decide) rfl rfl
    (by decide) (by decide) rfl

/-! ### Shape of the pos entry -/

theorem posTrack_good {cur : Option Value} {a v : String} (h3 : a ≠ "pos")
    (hg : posGood cur) : posGood (posTrack cur a v) := by
  unfold posTrack
  by_cases hcr : CREATED.contains a
  · rw [if_pos hcr]
    exact hg
  · rw [if_neg hcr]
    by_cases hps : POSITION.contains a
    · rw [if_pos hps]
      cases cur with
      | none =>
        cases hpf : parseFloat v with
        | none => simp only [hpf]; exact hg
        | some x =>
          simp only [hpf]
          refine ⟨by simp, ?_⟩
          intro w hw
          rw [List.mem_singleton] at hw
          exact ⟨x, hw⟩
      | some w =>
        cases w with
        | arr vs =>
          cases hpf : parseFloat v with
          | none => simp only [hpf]; exact hg
          | some x =>
            simp only [hpf]
            obtain ⟨hlen, hnum⟩ := hg
            by_cases hlat : a = "lat"
            · rw [if_pos hlat]
              refine ⟨by simp, ?_⟩
              intro w hw
              rcases List.mem_cons.mp hw with rfl | hw
              · exact ⟨x, rfl⟩
              · exact hnum w hw
            · rw [if_neg hlat]
              refine ⟨by simp [Nat.lt_of_lt_of_le hlen (Nat.le_add_right _ _)], ?_⟩
              intro w hw
              rcases List.mem_append.mp hw with hw | hw
              · exact hnum w hw
              · rw [List.mem_singleton] at hw
                exact ⟨x, hw⟩
        | str s => exact hg.elim
        | num q => exact hg.elim
        | obj m => exact hg.elim
    · rw [if_neg hps, if_neg h3]
      exact hg

theorem foldl_posTrack_good {as : List (String × String)} {cur : Option Value}
    (hp : ∀ p ∈ as, (p : String × String).1 ≠ "pos") (hg : posGood cur) :
    posGood (as.foldl (fun c p => posTrack c p.1 p.2) cur) := by
  induction as generalizing cur with
  | nil => exact hg
  | cons p rest ih =>
    rw [List.foldl_cons]
    exact ih (fun q hq => hp q (by simp [hq])) (posTrack_good (hp p (by simp)) hg)

theorem posTrack_len {cur : Option Value} {a v : String} :
    (posVals (posTrack cur a v)).length ≤
      (posVals cur).length + (if a = "lat" ∨ a = "lon" then 1 else 0) := by
  unfold posTrack
  by_cases hcr : CREATED.contains a
  · rw [if_pos hcr]
    exact Nat.le_add_right _ _
  · rw [if_neg hcr]
    by_cases hps : POSITION.contains a
    · rw [if_pos hps]
      have hor : a = "lat" ∨ a = "lon" := by simpa [POSITION] using hps
      rw [if_pos hor]
      cases cur with
      | none =>
        cases hpf : parseFloat v with
        | none => simp [hpf, posVals]
        | some x => simp [hpf, posVals]
      | some w =>
        cases w with
        | arr vs =>
          cases hpf : parseFloat v with
          | none => simp [hpf, posVals]
          | some x =>
            simp only [hpf]
            by_cases hlat : a = "lat"
            · rw [if_pos hlat]
              simp [posVals]
            · rw [if_neg hlat]
              simp [posVals]
        | str s =>
          cases hpf : parseFloat v with
          | none => simp [hpf, posVals]
          | some x => simp [hpf, posVals]
        | num q =>
          cases hpf : parseFloat v with
          | none => simp [hpf, posVals]
          | some x => simp [hpf, posVals]
        | obj m =>
          cases hpf : parseFloat v with
          | none => simp [hpf, posVals]
          | some x => simp [hpf, posVals]
    · rw [if_neg hps]
      by_cases hp : a = "pos"
      · rw [if_pos hp]
        simp [posVals]
      · rw [if_neg hp]
        exact Nat.le_add_right _ _

theorem foldl_posTrack_len {as : List (String × String)} {cur : Option Value} :
    (posVals (as.foldl (fun c p => posTrack c p.1 p.2) cur)).length ≤
      (posVals cur).length + as.countP (fun p => p.1 == "lat" || p.1 == "lon") := by
  induction as generalizing cur with
  | nil => simp
  | cons p rest ih =>
    obtain ⟨a, v⟩ := p
    rw [foldl_posTrack_cons]
    simp only [List.countP_cons]
    have h1 := @posTrack_len cur a v
    have h2 := @ih (posTrack cur a v)
    by_cases hor : a = "lat" ∨ a = "lon"
    · have hb : (((a, v) : String × String).1 == "lat" || (a, v).1 == "lon") = true := by
        rcases hor with h | h <;> simp [h]
      rw [if_pos hor] at h1
      simp only [hb, if_true]
      omega
    · have hb : (((a, v) : String × String).1 == "lat" || (a, v).1 == "lon") = false := by
        simp only [Bool.or_eq_false_iff, beq_eq_false_iff_ne, ne_eq]
        exact not_or.mp hor
      rw [if_neg hor] at h1
      simp only [hb, Bool.false_eq_true, if_false]
      omega

theorem countP_latlon_le_two {as : List (String × String)}
    (hnd : (as.map Prod.fst).Nodup) :
    as.countP (fun p => p.1 == "lat" || p.1 == "lon") ≤ 2 := by
  have h1 : as.countP (fun p => p.1 == "lat" || p.1 == "lon")
      = (as.map Prod.fst).countP (fun s => s == "lat" || s == "lon") := by
    rw [List.countP_map]
    rfl
  have h2 : ∀ l : List String,
      l.countP (fun s => s == "lat" || s == "lon") ≤ l.count "lat" + l.count "lon" := by
    intro l
    induction l with
    | nil => simp
    | cons s rest ih =>
      simp only [List.countP_cons, List.count_cons]
      by_cases e1 : s = "lat"
      · simp only [e1]
        simp
        omega
      · by_cases e2 : s = "lon"
        · simp only [e2]
          simp
          omega
        · simp [e1, e2, Ne.symm e1, Ne.symm e2]
          omega
  have h3 := (List.nodup_iff_count_le_one.mp hnd) "lat"
  have h4 := (List.nodup_iff_count_le_one.mp hnd) "lon"
  have h5 := h2 (as.map Prod.fst)
  omega

/-! ### Claim C7 -/

/-- C7 fails as stated: an accepted element carrying lat but not lon
produces a pos entry with exactly one element, not two. -/
theorem claim_C7_counterexample :
    shape_element (.mk "node" [("lat", "1")] []) =
      .ok (some [("type", .str "node"), ("pos", .arr [.num 1])]) := rfl

/-- C7 (amended): for every accepted element with unique attribute names,
no attribute named "pos" and no "tag" descendant with k = "pos", a pos
entry present in the returned document is a list of one or two elements,
all numbers (two exactly when both lat and lon are present, in the order
[lat, lon] — the order statement is claim C2). -/
theorem claim_C7_amended (e : Elem) (doc : Obj) (pv : Value)
    (ht : e.tag = "node" ∨ e.tag = "way")
    (hnd : (e.attrib.map Prod.fst).Nodup)
    (hpos : "pos" ∉ e.attrib.map Prod.fst)
    (hc : ∀ d ∈ iterAll e, d.tag = "tag" → getAttr d.attrib "k" ≠ some "pos")
    (h : shape_element e = .ok (some doc)) (hp : getKey doc "pos" = some pv) :
    ∃ l, pv = .arr l ∧ 1 ≤ l.length ∧ l.length ≤ 2 ∧ ∀ w ∈ l, ∃ q, w = .num q := by
  obtain ⟨n₁, h1, h2⟩ := shape_element_ok h ht
  have hstart : getKey (setKey [] "type" (.str e.tag)) "pos" = none := by
    simp [getKey, setKey]
  have hdoc : getKey doc "pos"
      = e.attrib.foldl (fun c p => posTrack c p.1 p.2) none := by
    rw [foldSubs_preserve h2 (by decide) (by decide) hc, foldAttrs_posTrack h1, hstart]
  rw [hp] at hdoc
  have hnopos : ∀ p ∈ e.attrib, (p : String × String).1 ≠ "pos" := by
    intro p hq e1
    exact hpos (e1 ▸ List.mem_map_of_mem Prod.fst hq)
  have hgood : posGood (e.attrib.foldl (fun c p => posTrack c p.1 p.2) none) :=
    foldl_posTrack_good hnopos trivial
  rw [← hdoc] at hgood
  have hlen := @foldl_posTrack_len e.attrib none
  rw [← hdoc] at hlen
  have hcount := countP_latlon_le_two hnd
  cases pv with
  | arr l =>
    obtain ⟨hl0, hnum⟩ := hgood
    refine ⟨l, rfl, hl0, ?_, hnum⟩
    simp [posVals] at hlen
    omega
  | str s => exact hgood.elim
  | num q => exact hgood.elim
  | obj m => exact hgood.elim

/-- Witness for C7 (amended) at a concrete element with both lat and
lon. -/
theorem claim_C7_witness :
    ∃ l, Value.arr [Value.num 1, Value.num 2] = Value.arr l ∧ 1 ≤ l.length ∧
      l.length ≤ 2 ∧ ∀ w ∈ l, ∃ q, w = Value.num q :=
  claim_C7_amended (.mk "node" [("lat", "1"), ("lon", "2")] [])
    [("type", Value.str "node"), ("pos", Value.arr [Value.num 1, Value.num 2])]
    (Value.arr [Value.num 1, Value.num 2]) (Or.inl rfl) (by decide) (by decide)
    (by decide) rfl rfl

/-! ### Claim C9 -/

theorem classifyAttr_attrsOk {n n' : Obj} {a v : String}
    (h : classifyAttr n a v = .ok n') (h1 : a ≠ "created") (h2 : a ≠ "pos")
    (hok : attrsOk n) : attrsOk n' := by
  obtain ⟨hc, hp⟩ := hok
  unfold classifyAttr at h
  by_cases hcr : CREATED.contains a
  · rw [if_pos hcr] at h
    cases hobj : objAt n "created" with
    | none => simp [hobj] at h
    | some m =>
      simp only [hobj] at h
      cases h
      constructor
      · simp [objAt, getKey_setKey_self]
      · unfold arrAt at hp ⊢
        rw [getKey_setKey_ne _ _ _ _ (by decide)]
        exact hp
  · rw [if_neg hcr] at h
    by_cases hps : POSITION.contains a
    · rw [if_pos hps] at h
      cases harr : arrAt n "pos" with
      | none => simp [harr] at h
      | some vs =>
        simp only [harr] at h
        cases hpf : parseFloat v with
        | none => simp [hpf] at h
        | some x =>
          simp only [hpf] at h
          by_cases hlat : a = "lat"
          · rw [if_pos hlat] at h
            cases h
            constructor
            · unfold objAt at hc ⊢
              rw [getKey_setKey_ne _ _ _ _ (by decide)]
              exact hc
            · simp [arrAt, getKey_setKey_self]
          · rw [if_neg hlat] at h
            cases h
            constructor
            · unfold objAt at hc ⊢
              rw [getKey_setKey_ne _ _ _ _ (by decide)]
              exact hc
            · simp [arrAt, getKey_setKey_self]
    · rw [if_neg hps] at h
      cases h
      constructor
      · unfold objAt at hc ⊢
        rw [getKey_setKey_ne _ _ _ _ (Ne.symm h1)]
        exact hc
      · unfold arrAt at hp ⊢
        rw [getKey_setKey_ne _ _ _ _ (Ne.symm h2)]
        exact hp

theorem foldAttrs_conversionError {as : List (String × String)} {n : Obj}
    (hok : attrsOk n)
    (hcn : "created" ∉ as.map Prod.fst) (hpn : "pos" ∉ as.map Prod.fst)
    (hbad : ∃ p ∈ as,
      ((p : String × String).1 = "lat" ∨ p.1 = "lon") ∧ parseFloat p.2 = none) :
    foldAttrs n as = .error .conversionError := by
  induction as generalizing n with
  | nil => simp at hbad
  | cons q rest ih =>
    obtain ⟨a, v⟩ := q
    have ha1 : a ≠ "created" := fun e => hcn (by simp [e])
    have ha2 : a ≠ "pos" := fun e => hpn (by simp [e])
    have hcrest : "created" ∉ rest.map Prod.fst := fun e => hcn (by simp [e])
    have hprest : "pos" ∉ rest.map Prod.fst := fun e => hpn (by simp [e])
    unfold foldAttrs
    by_cases hhead : (a = "lat" ∨ a = "lon") ∧ parseFloat v = none
    · obtain ⟨hor, hpf⟩ := hhead
      have hncr : ¬CREATED.contains a = true := by
        rcases hor with e | e <;> (rw [e]; decide)
      have hpsc : POSITION.contains a = true := by
        rcases hor with e | e <;> (rw [e]; decide)
      have hcls : classifyAttr n a v = .error .conversionError := by
        unfold classifyAttr
        rw [if_neg hncr, if_pos hpsc]
        obtain ⟨-, hparr⟩ := hok
        cases harr : arrAt n "pos" with
        | none => rw [harr] at hparr; simp at hparr
        | some vs => simp [harr, hpf]
      rw [hcls]
    · have hbadrest : ∃ p ∈ rest,
          ((p : String × String).1 = "lat" ∨ p.1 = "lon") ∧ parseFloat p.2 = none := by
        obtain ⟨p, hmem, hcond⟩ := hbad
        rcases List.mem_cons.mp hmem with rfl | hm
        · exact absurd hcond hhead
        · exact ⟨p, hm, hcond⟩
      have hsome : ∃ n₁, classifyAttr n a v = .ok n₁ := by
        unfold classifyAttr
        by_cases hcr : CREATED.contains a
        · rw [if_pos hcr]
          obtain ⟨hc', -⟩ := hok
          cases hobj : objAt n "created" with
          | none => rw [hobj] at hc'; simp at hc'
          | some m =>
            exact ⟨setKey n "created" (.obj (setKey m a (.str v))), by simp [hobj]⟩
        · rw [if_neg hcr]
          by_cases hps : POSITION.contains a
          · rw [if_pos hps]
            obtain ⟨-, hp'⟩ := hok
            cases harr : arrAt n "pos" with
            | none => rw [harr] at hp'; simp at hp'
            | some vs =>
              cases hpf : parseFloat v with
              | none =>
                exfalso
                apply hhead
                exact ⟨by simpa [POSITION] using hps, hpf⟩
              | some x =>
                by_cases hlat : a = "lat"
                · exact ⟨setKey n "pos" (.arr (.num x :: vs)), by simp [harr, hpf, hlat]⟩
                · exact ⟨setKey n "pos" (.arr (vs ++ [.num x])), by simp [harr, hpf, hlat]⟩
          · rw [if_neg hps]
            exact ⟨_, rfl⟩
      obtain ⟨n₁, hcls⟩ := hsome
      rw [hcls]
      exact ih (classifyAttr_attrsOk hcls ha1 ha2 hok) hcrest hprest hbadrest

/-- C9 fails as stated: when an attribute literally named "pos" precedes
a non-numeric lat value, the code reaches node["pos"].insert on a
non-list before converting the value, so it raises AttributeError, not
the ConversionError the claim promises. -/
theorem claim_C9_counterexample :
    shape_element (.mk "node" [("pos", "z"), ("lat", "x")] []) =
      .error .attributeError ∧ parseFloat "x" = none := ⟨rfl, rfl⟩

/-- C9 (amended): for every accepted element with no attribute named
"pos" or "created", carrying a lat or lon attribute whose value is not
numeric, shape_element fails with ConversionError, which propagates to
the caller (no document is returned). -/
theorem claim_C9_amended (e : Elem) (name val : String)
    (ht : e.tag = "node" ∨ e.tag = "way")
    (hcna : "created" ∉ e.attrib.map Prod.fst)
    (hpna : "pos" ∉ e.attrib.map Prod.fst)
    (hmem : (name, val) ∈ e.attrib)
    (hor : name = "lat" ∨ name = "lon")
    (hbad : parseFloat val = none) :
    shape_element e = .error .conversionError := by
  unfold shape_element
  rw [if_pos ht]
  have hok : attrsOk (setKey [] "type" (.str e.tag)) := by
    constructor
    · simp [objAt, getKey, setKey]
    · simp [arrAt, getKey, setKey]
  have herr := foldAttrs_conversionError hok hcna hpna ⟨(name, val), hmem, hor, hbad⟩
  rw [herr]

/-- Witness for C9 (amended): a lone non-numeric lat raises
ConversionError. -/
theorem claim_C9_witness :
    shape_element (.mk "node" [("lat", "x")] []) = .error .conversionError :=
  claim_C9_amended (.mk "node" [("lat", "x")] []) "lat" "x" (Or.inl rfl)
    (by decide) (by decide) (by decide) (Or.inl rfl) rfl

end OSM
